import Mathlib

/-!
Verification development for the ops-console service (`app.py`).

The Python source is shallowly embedded: pure helpers become Lean functions,
the registry protected by `jobs_lock` becomes an explicit state type with one
Lean function per atomic (single lock acquisition) step, and the interleaving
of HTTP handlers and runner threads becomes a trace of atomic events.
-/

/-- Characters matched by the class `[A-Za-z0-9._:slash-]` (slash stands for
the solidus character) in the regex of `validate_repo` (app.py line 40).
`Char.isAlpha`/`Char.isDigit` are the ASCII ranges A-Z, a-z and 0-9, as in
the regex. -/
def isRepoChar (c : Char) : Bool :=
  c.isAlpha || c.isDigit || c == '.' || c == '_' || c == ':' || c == '/' || c == '-'

/-- Characters matched by the class `[A-Za-z0-9._/\-]` in the regex of
`validate_ref` (app.py line 45). -/
def isRefChar (c : Char) : Bool :=
  c.isAlpha || c.isDigit || c == '.' || c == '_' || c == '/' || c == '-'

/-- Language of the regex fragment `[A-Za-z0-9._:slash-]+(\.git)?` used by
`validate_repo` after the alternation: since '.', 'g', 'i' and 't' all lie in
the character class, the optional `(\.git)?` group is absorbed by the `+`
repetition, and the matched strings are exactly the nonempty all-class
strings (proved below in `repoBody_iff_repoSpecBody`). -/
def repoBody (cs : List Char) : Bool :=
  !cs.isEmpty && cs.all isRepoChar

/-- Language of `(https://|git@)[A-Za-z0-9._:slash-]+(\.git)?` (the regex of
`validate_repo`, app.py line 40, without the anchors). -/
def matchRepoCore (cs : List Char) : Bool :=
  (cs.take 8 == "https://".data && repoBody (cs.drop 8)) ||
  (cs.take 4 == "git@".data && repoBody (cs.drop 4))

/-- Language of `[A-Za-z0-9._/\-]{1,128}` (the regex of `validate_ref`,
app.py line 45, without the anchors). -/
def refCore (cs : List Char) : Bool :=
  decide (1 ≤ cs.length) && decide (cs.length ≤ 128) && cs.all isRefChar

/-- Python's `$` anchor (no `re.MULTILINE`) matches at the end of the string
or just before a single newline at the end of the string, so
`bool(re.match(core + "$", s))` holds iff `core` matches all of `s`, or `s`
ends in one newline whose removal leaves a full `core` match. -/
def pyDollarMatch (core : List Char → Bool) (cs : List Char) : Bool :=
  core cs || (cs.getLast? == some '\n' && core cs.dropLast)

/-- `validate_repo` (app.py lines 39-41):
`bool(re.match(r"^(https://|git@)[A-Za-z0-9._:slash-]+(\.git)?$", repo))`. -/
def validate_repo (repo : String) : Bool :=
  pyDollarMatch matchRepoCore repo.data

/-- `validate_ref` (app.py lines 44-45):
`bool(re.match(r"^[A-Za-z0-9._/\-]{1,128}$", ref))`. -/
def validate_ref (ref : String) : Bool :=
  pyDollarMatch refCore ref.data

/-- Specification-side characterization for claim C4: the string decomposes as
an `https://` or `git@` prefix, a nonempty run of class characters, and an
optional literal `.git` suffix. -/
def RepoSpec (cs : List Char) : Prop :=
  ∃ p b g, cs = p ++ b ++ g ∧ (p = "https://".data ∨ p = "git@".data) ∧
    b ≠ [] ∧ (∀ c ∈ b, isRepoChar c) ∧ (g = [] ∨ g = ".git".data)

/-- Specification-side characterization for claim C5: length between 1 and 128
and every character in the class. -/
def RefSpec (cs : List Char) : Prop :=
  1 ≤ cs.length ∧ cs.length ≤ 128 ∧ ∀ c ∈ cs, isRefChar c

/-- Python `line.rstrip("\n")` (app.py line 111): removes every trailing
newline character. -/
def rstripNewline (s : String) : String :=
  ⟨s.data.rdropWhile (· == '\n')⟩

/-- Python list slice `l[-k:]`: the last `k` elements, except that `l[-0:]`
is `l[0:]`, the whole list (app.py line 113 uses `logs[-MAX_LOG_LINES:]`). -/
def sliceLast (k : Nat) (l : List String) : List String :=
  if k = 0 then l else l.rtake k

/-- The log-buffer step of `append_log` (app.py lines 111-113): append the
stripped line, then if the length exceeds the cap `N` (MAX_LOG_LINES), keep
only the last `N` entries. -/
def bufAppend (N : Nat) (logs : List String) (line : String) : List String :=
  if N < (logs ++ [rstripNewline line]).length then sliceLast N (logs ++ [rstripNewline line])
  else logs ++ [rstripNewline line]

/-- Job statuses: a job dict is created with status "running" (app.py line
167) and finalized to "success" or "failed" (lines 137, 145). -/
inductive JobStatus where
  | running
  | success
  | failed
deriving DecidableEq, Repr

/-- One job dict (app.py lines 162-172). Wall-clock timestamps (`now_iso`,
ISO-8601 strings) are abstracted as `Nat` instants supplied by each step;
the `id` key duplicates the dict key and is dropped. -/
structure Job where
  action : String
  repo : String
  ref : String
  status : JobStatus
  logs : List String
  started_at : Nat
  finished_at : Option Nat
  return_code : Option Int
deriving DecidableEq, Repr

/-- The registry guarded by `jobs_lock` (app.py lines 24-26): the `jobs`
dict, keyed by identifiers modelled as `Nat` (uuid4 strings in the source,
fresh for every created job), and `running_job_id`. `nextId` makes
freshness of new identifiers explicit: identifiers at or above it are
unused. -/
structure RegistryState where
  jobs : Nat → Option Job
  running_job_id : Option Nat
  nextId : Nat

/-- Point update of the jobs map (`jobs[job_id] = ...`). -/
def setJob (f : Nat → Option Job) (j : Nat) (v : Option Job) : Nat → Option Job :=
  fun i => if i = j then v else f i

/-- The module-level initial state (app.py lines 24-26): empty `jobs`,
`running_job_id = None`. -/
def initState : RegistryState :=
  { jobs := fun _ => none, running_job_id := none, nextId := 0 }

/-- `append_log(job_id, line)` (app.py lines 106-113), one atomic step under
`jobs_lock`: a missing job id is a silent no-op; otherwise the stripped line
is appended and the buffer capped at `N` = MAX_LOG_LINES. -/
def append_log (N : Nat) (σ : RegistryState) (job_id : Nat) (line : String) : RegistryState :=
  match σ.jobs job_id with
  | none => σ
  | some job =>
      { σ with jobs := setJob σ.jobs job_id (some { job with logs := bufAppend N job.logs line }) }

/-- The guard of `create_job` (app.py line 158):
`running_job_id and jobs.get(running_job_id, {}).get("status") == "running"`.
`running_job_id` is `None` or a nonempty (hence truthy) uuid string; a
missing dict entry yields an empty dict whose "status" is absent, hence not
equal to "running". -/
def slotBusy (σ : RegistryState) : Bool :=
  match σ.running_job_id with
  | none => false
  | some r =>
      match σ.jobs r with
      | none => false
      | some job => job.status == JobStatus.running

/-- The seeded first log line (app.py line 168), a Job-created banner
carrying the action name, with the wall-clock prefix abstracted away. -/
def creationLog (action : String) : String :=
  "Job created: " ++ action

/-- The job dict built by `create_job` (app.py lines 162-172). -/
def newJob (action repo ref : String) (t : Nat) : Job :=
  { action := action, repo := repo, ref := ref, status := JobStatus.running,
    logs := [creationLog action], started_at := t, finished_at := none, return_code := none }

/-- `create_job(action, repo, ref)` (app.py lines 155-177), whose
check-and-set body (lines 157-173) is one atomic step under `jobs_lock`:
if the slot is busy it returns `(None, running_job_id)` and changes
nothing; otherwise it registers a fresh job with status running, occupies
the slot, and returns `(job_id, None)`. Spawning the runner thread happens
outside the lock and is modelled by the runner's own later events. -/
def create_job (σ : RegistryState) (action repo ref : String) (t : Nat) :
    (Option Nat × Option Nat) × RegistryState :=
  if slotBusy σ then ((none, σ.running_job_id), σ)
  else
    ((some σ.nextId, none),
     { jobs := setJob σ.jobs σ.nextId (some (newJob action repo ref t)),
       running_job_id := some σ.nextId,
       nextId := σ.nextId + 1 })

/-- The terminal write of `run_job` (app.py lines 135-140 on the normal path
with `rc` the process exit code, lines 143-148 on the exception path with
`rc = -1`), one atomic step under `jobs_lock`: status, finished_at and
return_code are set together. In the app `run_job` is only ever invoked on
a job id just registered by `create_job`, so the `jobs.get(job_id, {})`
default (which would insert a stub dict) is unreachable and the missing-id
case is modelled as a no-op. -/
def finalizeJob (σ : RegistryState) (j : Nat) (rc : Int) (t : Nat) : RegistryState :=
  match σ.jobs j with
  | none => σ
  | some job =>
      { σ with
        jobs := setJob σ.jobs j
          (some { job with
                    status := if rc = 0 then JobStatus.success else JobStatus.failed,
                    finished_at := some t,
                    return_code := some rc }) }

/-- The finally block of `run_job` (app.py lines 149-152), one atomic step
under `jobs_lock`: clear `running_job_id` if it still points at this job. -/
def releaseSlot (σ : RegistryState) (j : Nat) : RegistryState :=
  if σ.running_job_id = some j then { σ with running_job_id := none } else σ

/-- Outcome of the supervised subprocess in `run_job`: either it streams
some stdout lines and exits with a code, or an exception is raised while
launching or streaming after some lines were already streamed. -/
inductive ProcOutcome where
  | exits (lines : List String) (code : Int)
  | raises (lines : List String) (msg : String)

/-- The diagnostic line of the exception path (app.py line 142), the
"[ERROR] Unexpected exception" banner followed by the exception text. -/
def errorLog (msg : String) : String :=
  "[ERROR] Unexpected exception: " ++ msg

/-- The streaming loop of `run_job` (app.py lines 132-133): one
`append_log` step per stdout line. -/
def streamLogs (N : Nat) (σ : RegistryState) (j : Nat) (lines : List String) : RegistryState :=
  lines.foldl (fun s l => append_log N s j l) σ

/-- `run_job(job_id, ...)` (app.py lines 116-152) as the sequence of atomic
steps it performs for a given process outcome: stream the lines; on normal
exit finalize with the exit code, on an exception append the diagnostic
line and finalize with -1; in both cases release the slot last. -/
def run_job (N : Nat) (σ : RegistryState) (j : Nat) (out : ProcOutcome) (t : Nat) :
    RegistryState :=
  match out with
  | ProcOutcome.exits lines code =>
      releaseSlot (finalizeJob (streamLogs N σ j lines) j code t) j
  | ProcOutcome.raises lines msg =>
      releaseSlot
        (finalizeJob (append_log N (streamLogs N σ j lines) j (errorLog msg)) j (-1) t) j

/-- The read half of `api_job` (app.py lines 213-228), under `jobs_lock`:
missing id is a 404; otherwise the response carries
`logs = job["logs"][offset:]` and `next_offset = offset + len(logs)`. -/
def read_from (σ : RegistryState) (job_id : Nat) (offset : Nat) :
    Option (List String × Nat) :=
  match σ.jobs job_id with
  | none => none
  | some job => some (job.logs.drop offset, offset + (job.logs.drop offset).length)

/-- Digit run to number, as Python `int()` does for a validated digit
string. -/
def pyIntDigits (ds : List Char) : Nat :=
  ds.foldl (fun a c => a * 10 + (c.toNat - 48)) 0

/-- Sign handling of Python `int()`: an optional leading '+' or '-'. -/
def pyIntSign (t : List Char) : Int × List Char :=
  match t with
  | '+' :: rest => (1, rest)
  | '-' :: rest => (-1, rest)
  | _ => (1, t)

/-- Model of the Python built-in `int(str)` used at app.py line 208:
surrounding whitespace is ignored, then an optional sign and a nonempty
digit run; anything else raises ValueError, modelled as `none`. (Underscore
digit grouping and non-ASCII digits, which CPython also accepts, are not
modelled; every claim below treats parse success and failure through the
same `Option` interface, so nothing depends on the exact accepted set.) -/
def parsePyInt (s : String) : Option Int :=
  let t := (s.data.dropWhile Char.isWhitespace).rdropWhile Char.isWhitespace
  let sd := pyIntSign t
  if !sd.2.isEmpty && sd.2.all Char.isDigit then
    some (sd.1 * (pyIntDigits sd.2 : Int))
  else none

/-- The offset computation of `api_job` (app.py lines 207-211): parse the
offset query parameter (default "0"), a ValueError yields 0, then clamp
with `max(offset, 0)`. -/
def offsetOf (raw : Option String) : Int :=
  max (match parsePyInt (raw.getD "0") with | none => 0 | some n => n) 0

/-- `api_job` (app.py lines 204-229): offset handling followed by the locked
read. The clamped offset is nonnegative, so `toNat` is exact. -/
def api_job (σ : RegistryState) (job_id : Nat) (raw : Option String) :
    Option (List String × Nat) :=
  read_from σ job_id (offsetOf raw).toNat

/-- The atomic (single lock acquisition) events of the system: the
check-and-set of `create_job` from an HTTP handler, and the three kinds of
steps a runner thread performs. -/
inductive Event where
  | create (action repo ref : String) (t : Nat)
  | append (j : Nat) (line : String)
  | finalize (j : Nat) (rc : Int) (t : Nat)
  | release (j : Nat)

/-- State transition of one atomic event. -/
def stepF (N : Nat) (σ : RegistryState) (e : Event) : RegistryState :=
  match e with
  | Event.create a r f t => (create_job σ a r f t).2
  | Event.append j line => append_log N σ j line
  | Event.finalize j rc t => finalizeJob σ j rc t
  | Event.release j => releaseSlot σ j

/-- Run a trace of atomic events. -/
def runTrace (N : Nat) (σ : RegistryState) (es : List Event) : RegistryState :=
  es.foldl (stepF N) σ

/-- Identifiers already finalized by their runner, accumulated along a
trace. -/
def finAfter (fin : List Nat) (e : Event) : List Nat :=
  match e with
  | Event.finalize j _ _ => j :: fin
  | _ => fin

/-- Which events the program can emit next: `create` and `append` any time;
a runner finalizes only a job that exists (its own, registered by
`create_job` before the thread starts) and does so at most once per job
(`run_job` writes the terminal state exactly once, on one of its two
disjoint paths, and each job gets exactly one runner thread); `release` is
the finally step of `run_job` and therefore comes after that same
runner's finalize. -/
def OkStep (fin : List Nat) (σ : RegistryState) (e : Event) : Prop :=
  match e with
  | Event.finalize j _ _ => (σ.jobs j).isSome = true ∧ j ∉ fin
  | Event.release j => j ∈ fin
  | _ => True

/-- Traces the program can emit from `σ` with finalized-set `fin`. -/
def ValidFrom (N : Nat) : List Nat → RegistryState → List Event → Prop
  | _, _, [] => True
  | fin, σ, e :: rest =>
      OkStep fin σ e ∧ ValidFrom N (finAfter fin e) (stepF N σ e) rest

/-- The status recorded for identifier `i`, if any. -/
def statusOf (σ : RegistryState) (i : Nat) : Option JobStatus :=
  (σ.jobs i).map Job.status

/-- Identifier `i` holds a job in running status. -/
def JobRunning (σ : RegistryState) (i : Nat) : Prop :=
  statusOf σ i = some JobStatus.running

/-- Identifier `i` holds a job in a terminal (success or failed) status. -/
def TerminalJob (σ : RegistryState) (i : Nat) : Prop :=
  ∃ s, statusOf σ i = some s ∧ s ≠ JobStatus.running

/-- The fields set by the terminal write and never touched afterwards. -/
def termFields (job : Job) : JobStatus × Option Nat × Option Int :=
  (job.status, job.finished_at, job.return_code)

/-- Inductive invariant of reachable registry states: every running job is
the one the slot points at (hence there is at most one); identifiers at or
above `nextId` are unused; and the finalized identifiers are exactly the
jobs in terminal status. -/
structure RegInv (fin : List Nat) (σ : RegistryState) : Prop where
  slot_of_running : ∀ i, JobRunning σ i → σ.running_job_id = some i
  fresh : ∀ i, σ.nextId ≤ i → σ.jobs i = none
  fin_terminal : ∀ j, j ∈ fin → TerminalJob σ j
  terminal_fin : ∀ j, TerminalJob σ j → j ∈ fin

/-- Concrete job with an empty log buffer, for counterexample states. -/
def jobEmptyLogs : Job :=
  { action := "deploy", repo := "https://x", ref := "main", status := JobStatus.running,
    logs := [], started_at := 0, finished_at := none, return_code := none }

/-- Concrete one-job registry used by the claim C3 counterexample. -/
def sigmaC3 : RegistryState :=
  { jobs := setJob (fun _ => none) 0 (some jobEmptyLogs),
    running_job_id := some 0, nextId := 1 }

theorem refCore_iff_refSpec (cs : List Char) : refCore cs = true ↔ RefSpec cs := by
  simp [refCore, RefSpec, List.all_eq_true, and_assoc]

theorem repoBody_iff_repoSpecBody (cs : List Char) :
    repoBody cs = true ↔
      ∃ b g, cs = b ++ g ∧ b ≠ [] ∧ (∀ c ∈ b, isRepoChar c) ∧
        (g = [] ∨ g = ".git".data) := by
  constructor
  · rintro h
    simp only [repoBody, Bool.and_eq_true, Bool.not_eq_true', List.isEmpty_eq_false,
      List.all_eq_true] at h
    exact ⟨cs, [], by simp, h.1, h.2, Or.inl rfl⟩
  · rintro ⟨b, g, rfl, hb, hall, hg⟩
    simp only [repoBody, Bool.and_eq_true, Bool.not_eq_true', List.isEmpty_eq_false,
      List.all_eq_true]
    refine ⟨by simp [hb], ?_⟩
    intro c hc
    rcases List.mem_append.mp hc with h | h
    · exact hall c h
    · rcases hg with rfl | rfl
      · simp at h
      · fin_cases h <;> decide

theorem getLast?_newline_iff (cs : List Char) :
    (cs.getLast? == some '\n') = true ↔ ∃ l, cs = l ++ ['\n'] := by
  rw [beq_iff_eq]
  constructor
  · intro h
    refine ⟨cs.dropLast, ?_⟩
    conv_lhs => rw [← List.dropLast_append_getLast? '\n' h]
  · rintro ⟨l, rfl⟩
    simp

theorem pyDollarMatch_iff (core : List Char → Bool) (S : List Char → Prop)
    (hc : ∀ cs, core cs = true ↔ S cs) (cs : List Char) :
    pyDollarMatch core cs = true ↔ S cs ∨ ∃ l, cs = l ++ ['\n'] ∧ S l := by
  simp only [pyDollarMatch, Bool.or_eq_true, Bool.and_eq_true, hc]
  constructor
  · rintro (h | ⟨hl, hcore⟩)
    · exact Or.inl h
    · obtain ⟨l, rfl⟩ := (getLast?_newline_iff _).mp hl
      exact Or.inr ⟨l, rfl, by simpa using hcore⟩
  · rintro (h | ⟨l, rfl, hS⟩)
    · exact Or.inl h
    · refine Or.inr ⟨?_, by simpa using hS⟩
      exact (getLast?_newline_iff _).mpr ⟨l, rfl⟩

theorem take_drop_split {p cs : List Char} (h : cs.take p.length = p) :
    cs = p ++ cs.drop p.length := by
  conv_lhs => rw [← List.take_append_drop p.length cs, h]

theorem matchRepoCore_iff (cs : List Char) : matchRepoCore cs = true ↔ RepoSpec cs := by
  simp only [matchRepoCore, Bool.or_eq_true, Bool.and_eq_true, beq_iff_eq]
  constructor
  · rintro (⟨ht, hb⟩ | ⟨ht, hb⟩)
    all_goals
      obtain ⟨b, g, hsplit, hne, hall, hg⟩ := (repoBody_iff_repoSpecBody _).mp hb
    · refine ⟨"https://".data, b, g, ?_, Or.inl rfl, hne, hall, hg⟩
      have hcs : cs = "https://".data ++ cs.drop 8 := take_drop_split ht
      rw [hcs, hsplit, List.append_assoc]
    · refine ⟨"git@".data, b, g, ?_, Or.inr rfl, hne, hall, hg⟩
      have hcs : cs = "git@".data ++ cs.drop 4 := take_drop_split ht
      rw [hcs, hsplit, List.append_assoc]
  · rintro ⟨p, b, g, rfl, hp, hne, hall, hg⟩
    have hbody : repoBody (b ++ g) = true :=
      (repoBody_iff_repoSpecBody _).mpr ⟨b, g, rfl, hne, hall, hg⟩
    rcases hp with rfl | rfl
    · left
      rw [List.append_assoc]
      have hd : ("https://".data ++ (b ++ g)).drop 8 = b ++ g := List.drop_left' (by rfl)
      exact ⟨List.take_left' rfl, by rw [hd]; exact hbody⟩
    · right
      rw [List.append_assoc]
      have hd : ("git@".data ++ (b ++ g)).drop 4 = b ++ g := List.drop_left' (by rfl)
      exact ⟨List.take_left' rfl, by rw [hd]; exact hbody⟩

/-- C4 (counterexample): the string "https://a" followed by a newline is
accepted by `validate_repo` (Python's `$` matches just before a trailing
newline) yet contains a character outside the class, so the claimed
characterization — every accepted string has all its characters in the
class — is false. -/
theorem validate_repo_claim_counterexample :
    validate_repo "https://a\n" = true ∧
      ¬ (∀ c ∈ "https://a\n".data, isRepoChar c = true) := by
  constructor
  · decide
  · decide

/-- C4 (amended): `validate_repo s` is true iff `s`, possibly after removal
of one trailing newline (accepted because Python's `$` also matches just
before a final newline), decomposes as an `https://` or `git@` prefix
followed by one or more characters of the class, with an optional trailing
".git". -/
theorem validate_repo_characterization (s : String) :
    validate_repo s = true ↔
      RepoSpec s.data ∨ ∃ l, s.data = l ++ ['\n'] ∧ RepoSpec l :=
  pyDollarMatch_iff matchRepoCore RepoSpec matchRepoCore_iff s.data

/-- C5 (counterexample): the two-character string "a" followed by a newline
is accepted by `validate_ref` (Python's `$` matches just before a trailing
newline) yet its characters are not all in the class, so the claimed
exact characterization is false. -/
theorem validate_ref_claim_counterexample :
    validate_ref "a\n" = true ∧ ¬ (∀ c ∈ "a\n".data, isRefChar c = true) := by
  constructor
  · decide
  · decide

/-- C5 (amended): `validate_ref s` is true iff `s`, possibly after removal
of one trailing newline (accepted because Python's `$` also matches just
before a final newline), consists of 1 to 128 characters of the class. -/
theorem validate_ref_characterization (s : String) :
    validate_ref s = true ↔
      RefSpec s.data ∨ ∃ l, s.data = l ++ ['\n'] ∧ RefSpec l :=
  pyDollarMatch_iff refCore RefSpec refCore_iff_refSpec s.data

theorem rtake_append_rtake (n : Nat) (ys zs : List String) :
    (ys.rtake n ++ zs).rtake n = (ys ++ zs).rtake n := by
  simp only [List.rtake_eq_reverse_take_reverse, List.reverse_append, List.reverse_reverse,
    List.take_append_eq_append_take, List.take_take, List.length_reverse]
  rw [Nat.min_eq_left (Nat.sub_le n zs.length)]

theorem bufAppend_eq_rtake (N : Nat) (hN : 1 ≤ N) (logs : List String) (line : String) :
    bufAppend N logs line = (logs ++ [rstripNewline line]).rtake N := by
  unfold bufAppend
  split
  · unfold sliceLast
    rw [if_neg (by omega)]
  · rename_i h
    rw [List.rtake, Nat.sub_eq_zero_of_le (by omega), List.drop_zero]

theorem bufAppend_length_le (N : Nat) (hN : 1 ≤ N) (logs : List String) (line : String) :
    (bufAppend N logs line).length ≤ N := by
  rw [bufAppend_eq_rtake N hN]
  rw [List.rtake, List.length_drop]
  omega

theorem bufAppend_getLast? (N : Nat) (hN : 1 ≤ N) (logs : List String) (line : String) :
    (bufAppend N logs line).getLast? = some (rstripNewline line) := by
  rw [bufAppend_eq_rtake N hN, List.rtake_eq_reverse_take_reverse, List.getLast?_reverse]
  rw [List.reverse_append]
  obtain ⟨m, rfl⟩ : ∃ m, N = m + 1 := ⟨N - 1, by omega⟩
  simp

theorem isSuffix_append_same {α : Type} {l₁ l₂ : List α} (t : List α) (h : l₁ <:+ l₂) :
    l₁ ++ t <:+ l₂ ++ t := by
  obtain ⟨p, hp⟩ := h
  exact ⟨p, by rw [← List.append_assoc, hp]⟩

theorem bufAppend_suffix (N : Nat) (logs : List String) (line : String) :
    bufAppend N logs line <:+ logs ++ [rstripNewline line] := by
  unfold bufAppend
  split
  · unfold sliceLast
    split
    · exact List.suffix_refl _
    · exact List.drop_suffix _ _
  · exact List.suffix_refl _

theorem foldl_bufAppend_suffix (N : Nat) (lines : List String) :
    ∀ L0 : List String, lines.foldl (bufAppend N) L0 <:+ L0 ++ lines.map rstripNewline := by
  induction lines with
  | nil => intro L0; simp
  | cons x xs ih =>
      intro L0
      have h1 : xs.foldl (bufAppend N) (bufAppend N L0 x) <:+
          bufAppend N L0 x ++ xs.map rstripNewline := ih (bufAppend N L0 x)
      have h2 : bufAppend N L0 x ++ xs.map rstripNewline <:+
          (L0 ++ [rstripNewline x]) ++ xs.map rstripNewline :=
        isSuffix_append_same _ (bufAppend_suffix N L0 x)
      have h3 := h1.trans h2
      rw [List.append_assoc] at h3
      simpa using h3

theorem foldl_bufAppend_rtake (N : Nat) (hN : 1 ≤ N) (lines : List String) :
    ∀ L0 : List String, L0.length ≤ N →
      lines.foldl (bufAppend N) L0 = (L0 ++ lines.map rstripNewline).rtake N := by
  induction lines with
  | nil =>
      intro L0 hL0
      simp only [List.foldl_nil, List.map_nil, List.append_nil]
      rw [List.rtake, Nat.sub_eq_zero_of_le hL0, List.drop_zero]
  | cons x xs ih =>
      intro L0 hL0
      rw [List.foldl_cons]
      rw [ih (bufAppend N L0 x) (bufAppend_length_le N hN L0 x)]
      rw [bufAppend_eq_rtake N hN, rtake_append_rtake]
      rw [List.append_assoc]
      rfl

theorem streamLogs_nil (N : Nat) (σ : RegistryState) (j : Nat) :
    streamLogs N σ j [] = σ := rfl

theorem streamLogs_cons (N : Nat) (σ : RegistryState) (j : Nat) (x : String) (xs : List String) :
    streamLogs N σ j (x :: xs) = streamLogs N (append_log N σ j x) j xs := rfl

theorem setJob_same (f : Nat → Option Job) (j : Nat) (v : Option Job) :
    setJob f j v j = v := by simp [setJob]

theorem setJob_ne (f : Nat → Option Job) (j : Nat) (v : Option Job) {i : Nat} (h : i ≠ j) :
    setJob f j v i = f i := by simp [setJob, h]

theorem append_log_jobs_some (N : Nat) (σ : RegistryState) (j : Nat) (line : String)
    {job : Job} (h : σ.jobs j = some job) :
    (append_log N σ j line).jobs j = some { job with logs := bufAppend N job.logs line } := by
  simp [append_log, h, setJob_same]

theorem append_log_jobs_ne (N : Nat) (σ : RegistryState) (j : Nat) (line : String)
    {i : Nat} (h : i ≠ j) : (append_log N σ j line).jobs i = σ.jobs i := by
  unfold append_log
  cases hj : σ.jobs j
  · rfl
  · exact setJob_ne _ _ _ h

theorem append_log_slot (N : Nat) (σ : RegistryState) (j : Nat) (line : String) :
    (append_log N σ j line).running_job_id = σ.running_job_id := by
  unfold append_log
  cases σ.jobs j <;> rfl

theorem append_log_nextId (N : Nat) (σ : RegistryState) (j : Nat) (line : String) :
    (append_log N σ j line).nextId = σ.nextId := by
  unfold append_log
  cases σ.jobs j <;> rfl

theorem append_log_termFields (N : Nat) (σ : RegistryState) (j : Nat) (line : String) (i : Nat) :
    ((append_log N σ j line).jobs i).map termFields = (σ.jobs i).map termFields := by
  by_cases hij : i = j
  · subst hij
    cases hj : σ.jobs i
    · simp [append_log, hj]
    · rw [append_log_jobs_some N σ i line hj]
      rfl
  · rw [append_log_jobs_ne N σ j line hij]

theorem termFields_statusOf (σ σ' : RegistryState) (i : Nat)
    (h : (σ'.jobs i).map termFields = (σ.jobs i).map termFields) :
    statusOf σ' i = statusOf σ i := by
  unfold statusOf
  cases h1 : σ'.jobs i <;> cases h2 : σ.jobs i <;> rw [h1, h2] at h <;> simp_all [termFields]

theorem termFields_isSome (σ σ' : RegistryState) (i : Nat)
    (h : (σ'.jobs i).map termFields = (σ.jobs i).map termFields) :
    (σ'.jobs i).isSome = (σ.jobs i).isSome := by
  cases h1 : σ'.jobs i <;> cases h2 : σ.jobs i <;> rw [h1, h2] at h <;> simp_all

theorem streamLogs_jobs_some (N : Nat) (lines : List String) :
    ∀ (σ : RegistryState) (j : Nat) (job : Job), σ.jobs j = some job →
      (streamLogs N σ j lines).jobs j =
        some { job with logs := lines.foldl (bufAppend N) job.logs } := by
  induction lines with
  | nil => intro σ j job h; simpa using h
  | cons x xs ih =>
      intro σ j job h
      rw [streamLogs_cons, List.foldl_cons]
      exact ih (append_log N σ j x) j { job with logs := bufAppend N job.logs x }
        (append_log_jobs_some N σ j x h)

theorem streamLogs_slot (N : Nat) (lines : List String) :
    ∀ (σ : RegistryState) (j : Nat),
      (streamLogs N σ j lines).running_job_id = σ.running_job_id := by
  induction lines with
  | nil => intro σ j; rfl
  | cons x xs ih =>
      intro σ j
      rw [streamLogs_cons, ih, append_log_slot]

theorem streamLogs_nextId (N : Nat) (lines : List String) :
    ∀ (σ : RegistryState) (j : Nat), (streamLogs N σ j lines).nextId = σ.nextId := by
  induction lines with
  | nil => intro σ j; rfl
  | cons x xs ih =>
      intro σ j
      rw [streamLogs_cons, ih, append_log_nextId]

theorem streamLogs_termFields (N : Nat) (lines : List String) :
    ∀ (σ : RegistryState) (j i : Nat),
      ((streamLogs N σ j lines).jobs i).map termFields = (σ.jobs i).map termFields := by
  induction lines with
  | nil => intro σ j i; rfl
  | cons x xs ih =>
      intro σ j i
      rw [streamLogs_cons, ih, append_log_termFields]

theorem streamLogs_jobs_ne (N : Nat) (lines : List String) :
    ∀ (σ : RegistryState) (j : Nat) {i : Nat}, i ≠ j →
      (streamLogs N σ j lines).jobs i = σ.jobs i := by
  induction lines with
  | nil => intro σ j i _; rfl
  | cons x xs ih =>
      intro σ j i h
      rw [streamLogs_cons, ih _ _ h, append_log_jobs_ne _ _ _ _ h]

theorem finalizeJob_jobs_some (σ : RegistryState) (j : Nat) (rc : Int) (t : Nat)
    {job : Job} (h : σ.jobs j = some job) :
    (finalizeJob σ j rc t).jobs j =
      some { job with
               status := if rc = 0 then JobStatus.success else JobStatus.failed,
               finished_at := some t,
               return_code := some rc } := by
  simp [finalizeJob, h, setJob_same]

theorem finalizeJob_jobs_ne (σ : RegistryState) (j : Nat) (rc : Int) (t : Nat)
    {i : Nat} (h : i ≠ j) : (finalizeJob σ j rc t).jobs i = σ.jobs i := by
  unfold finalizeJob
  cases hj : σ.jobs j
  · rfl
  · exact setJob_ne _ _ _ h

theorem finalizeJob_slot (σ : RegistryState) (j : Nat) (rc : Int) (t : Nat) :
    (finalizeJob σ j rc t).running_job_id = σ.running_job_id := by
  unfold finalizeJob
  cases σ.jobs j <;> rfl

theorem finalizeJob_nextId (σ : RegistryState) (j : Nat) (rc : Int) (t : Nat) :
    (finalizeJob σ j rc t).nextId = σ.nextId := by
  unfold finalizeJob
  cases σ.jobs j <;> rfl

theorem releaseSlot_jobs (σ : RegistryState) (j : Nat) :
    (releaseSlot σ j).jobs = σ.jobs := by
  unfold releaseSlot
  split <;> rfl

theorem releaseSlot_nextId (σ : RegistryState) (j : Nat) :
    (releaseSlot σ j).nextId = σ.nextId := by
  unfold releaseSlot
  split <;> rfl

theorem create_job_of_busy (σ : RegistryState) (a r f : String) (t : Nat)
    (h : slotBusy σ = true) : create_job σ a r f t = ((none, σ.running_job_id), σ) := by
  simp [create_job, h]

theorem create_job_of_free (σ : RegistryState) (a r f : String) (t : Nat)
    (h : slotBusy σ = false) :
    create_job σ a r f t =
      ((some σ.nextId, none),
       { jobs := setJob σ.jobs σ.nextId (some (newJob a r f t)),
         running_job_id := some σ.nextId,
         nextId := σ.nextId + 1 }) := by
  simp [create_job, h]

theorem create_job_jobs_ne (σ : RegistryState) (a r f : String) (t : Nat)
    {i : Nat} (h : i ≠ σ.nextId) : ((create_job σ a r f t).2).jobs i = σ.jobs i := by
  unfold create_job
  split
  · rfl
  · exact setJob_ne _ _ _ h

theorem read_from_some (σ : RegistryState) (j off : Nat) {job : Job}
    (h : σ.jobs j = some job) :
    read_from σ j off = some (job.logs.drop off, off + (job.logs.drop off).length) := by
  simp [read_from, h]

/-- C8: after every `append_log` on an existing job, the job's log buffer
has length at most the cap `N = MAX_LOG_LINES` (for any positive cap) and is
a suffix of the previous buffer extended by the stripped new line; moreover
any sequence of buffer appends leaves the buffer a contiguous suffix of all
(stripped) lines ever appended, so eviction is FIFO and never
mid-sequence. -/
theorem append_log_cap_fifo (N : Nat) (hN : 1 ≤ N) :
    (∀ (σ : RegistryState) (j : Nat) (line : String) (job job' : Job),
        σ.jobs j = some job → (append_log N σ j line).jobs j = some job' →
          job'.logs.length ≤ N ∧ job'.logs <:+ job.logs ++ [rstripNewline line]) ∧
    (∀ L0 lines : List String,
        lines.foldl (bufAppend N) L0 <:+ L0 ++ lines.map rstripNewline) := by
  constructor
  · intro σ j line job job' hjob hjob'
    rw [append_log_jobs_some N σ j line hjob] at hjob'
    obtain rfl := Option.some.inj hjob'
    exact ⟨bufAppend_length_le N hN job.logs line, bufAppend_suffix N job.logs line⟩
  · intro L0 lines
    exact foldl_bufAppend_suffix N lines L0

theorem append_log_cap_fifo_witness :
    ({ jobEmptyLogs with logs := ["a"] } : Job).logs.length ≤ 2 ∧
      ({ jobEmptyLogs with logs := ["a"] } : Job).logs <:+
        jobEmptyLogs.logs ++ [rstripNewline "a"] :=
  (append_log_cap_fifo 2 (by decide)).1 sigmaC3 0 "a" jobEmptyLogs
    { jobEmptyLogs with logs := ["a"] } (by decide) (by decide)

/-- C9: `append_log` on a job id absent from the registry is a total no-op:
the whole registry state is returned unchanged. -/
theorem append_log_missing_is_noop (N : Nat) (σ : RegistryState) (j : Nat) (line : String)
    (h : σ.jobs j = none) : append_log N σ j line = σ := by
  simp [append_log, h]

theorem append_log_missing_is_noop_witness :
    append_log 5 initState 0 "boom" = initState :=
  append_log_missing_is_noop 5 initState 0 "boom" rfl

/-- C3 (counterexample): with cap `N = 2`, appending the `k = 3` lines "a",
"b", "c" to a job whose buffer starts empty and then reading from offset 0
returns the last two lines — but `next_offset` is 2, the retained-buffer
length, not `k = 3`, the count of lines ever appended: the claimed
`next_offset = k` is false. -/
theorem log_roundtrip_claim_counterexample :
    read_from (streamLogs 2 sigmaC3 0 ["a", "b", "c"]) 0 0 = some (["b", "c"], 2) ∧
      (2 : Nat) ≠ 3 :=
  ⟨by decide, by decide⟩

/-- C3 (amended): appending `k > N` lines to a job with an empty buffer and
reading from offset 0 yields the last `N` (stripped) lines in original
relative order, and `next_offset` equals `N` = `min k N`, the number of
retained lines — offsets index the retained buffer, not the lines ever
appended. -/
theorem log_roundtrip_next_offset (N : Nat) (hN : 1 ≤ N) (lines : List String)
    (hNk : N < lines.length) (σ : RegistryState) (j : Nat) (job : Job)
    (hj : σ.jobs j = some job) (hlogs : job.logs = []) :
    read_from (streamLogs N σ j lines) j 0 =
      some ((lines.map rstripNewline).drop (lines.length - N), N) := by
  have hjobs := streamLogs_jobs_some N lines σ j job hj
  rw [hlogs] at hjobs
  have hfold := foldl_bufAppend_rtake N hN lines [] (by simp)
  rw [List.nil_append] at hfold
  rw [hfold] at hjobs
  rw [read_from_some _ _ _ hjobs]
  have hlen : (((lines.map rstripNewline).rtake N).drop 0).length = N := by
    rw [List.drop_zero, List.rtake, List.length_drop, List.length_map]
    omega
  rw [hlen]
  simp only [List.drop_zero, Nat.zero_add]
  rw [List.rtake, List.length_map]

theorem log_roundtrip_next_offset_witness :
    read_from (streamLogs 2 sigmaC3 0 ["a", "b", "c"]) 0 0 =
      some ((["a", "b", "c"].map rstripNewline).drop (["a", "b", "c"].length - 2), 2) :=
  log_roundtrip_next_offset 2 (by decide) ["a", "b", "c"] (by decide) sigmaC3 0
    jobEmptyLogs (by decide) (by decide)

/-- C10: the offset handling of `api_job` is total: a query value that does
not parse as an integer is treated as 0, a nonpositive parsed value is
clamped to 0, and for an existing job every offset yields the well-defined
slice of the retained logs together with `next_offset`. -/
theorem api_job_offset_total (raw : Option String) (σ : RegistryState) (j : Nat) (job : Job)
    (hj : σ.jobs j = some job) :
    (parsePyInt (raw.getD "0") = none → offsetOf raw = 0) ∧
    (∀ n, parsePyInt (raw.getD "0") = some n → n ≤ 0 → offsetOf raw = 0) ∧
    api_job σ j raw =
      some (job.logs.drop (offsetOf raw).toNat,
            (offsetOf raw).toNat + (job.logs.drop (offsetOf raw).toNat).length) := by
  refine ⟨?_, ?_, ?_⟩
  · intro h
    simp [offsetOf, h]
  · intro n h hn
    simp only [offsetOf, h]
    omega
  · rw [api_job, read_from_some _ _ _ hj]

theorem api_job_offset_total_witness :
    (parsePyInt ((some "abc").getD "0") = none → offsetOf (some "abc") = 0) ∧
    (∀ n, parsePyInt ((some "abc").getD "0") = some n → n ≤ 0 →
        offsetOf (some "abc") = 0) ∧
    api_job sigmaC3 0 (some "abc") =
      some (jobEmptyLogs.logs.drop (offsetOf (some "abc")).toNat,
            (offsetOf (some "abc")).toNat +
              (jobEmptyLogs.logs.drop (offsetOf (some "abc")).toNat).length) :=
  api_job_offset_total (some "abc") sigmaC3 0 jobEmptyLogs (by decide)

theorem validFrom_cons (N : Nat) (fin : List Nat) (σ : RegistryState) (e : Event)
    (rest : List Event) :
    ValidFrom N fin σ (e :: rest) ↔
      OkStep fin σ e ∧ ValidFrom N (finAfter fin e) (stepF N σ e) rest := Iff.rfl

theorem runTrace_cons (N : Nat) (σ : RegistryState) (e : Event) (rest : List Event) :
    runTrace N σ (e :: rest) = runTrace N (stepF N σ e) rest := rfl

theorem jobRunning_elim (σ : RegistryState) (i : Nat) (h : JobRunning σ i) :
    ∃ jb, σ.jobs i = some jb ∧ jb.status = JobStatus.running := by
  unfold JobRunning statusOf at h
  cases hji : σ.jobs i <;> rw [hji] at h <;> simp_all

theorem terminalJob_isSome (σ : RegistryState) (i : Nat) (h : TerminalJob σ i) :
    (σ.jobs i).isSome = true := by
  obtain ⟨s, hs, _⟩ := h
  unfold statusOf at hs
  cases hji : σ.jobs i <;> rw [hji] at hs <;> simp_all

theorem jobRunning_of_statusOf {σ σ' : RegistryState} {i : Nat}
    (h : statusOf σ' i = statusOf σ i) : JobRunning σ' i ↔ JobRunning σ i := by
  unfold JobRunning
  rw [h]

theorem terminalJob_of_statusOf {σ σ' : RegistryState} {i : Nat}
    (h : statusOf σ' i = statusOf σ i) : TerminalJob σ' i ↔ TerminalJob σ i := by
  unfold TerminalJob
  rw [h]

theorem append_log_statusOf (N : Nat) (σ : RegistryState) (j : Nat) (line : String) (i : Nat) :
    statusOf (append_log N σ j line) i = statusOf σ i :=
  termFields_statusOf _ _ i (append_log_termFields N σ j line i)

theorem finalizeJob_statusOf_ne (σ : RegistryState) (j : Nat) (rc : Int) (t : Nat)
    {i : Nat} (h : i ≠ j) : statusOf (finalizeJob σ j rc t) i = statusOf σ i := by
  unfold statusOf
  rw [finalizeJob_jobs_ne _ _ _ _ h]

theorem finalizeJob_statusOf_self (σ : RegistryState) (j : Nat) (rc : Int) (t : Nat)
    {job : Job} (h : σ.jobs j = some job) :
    statusOf (finalizeJob σ j rc t) j =
      some (if rc = 0 then JobStatus.success else JobStatus.failed) := by
  unfold statusOf
  rw [finalizeJob_jobs_some _ _ _ _ h]
  rfl

theorem finalized_status_ne_running (rc : Int) :
    (if rc = 0 then JobStatus.success else JobStatus.failed) ≠ JobStatus.running := by
  by_cases h : rc = 0 <;> simp [h]

theorem releaseSlot_statusOf (σ : RegistryState) (j : Nat) (i : Nat) :
    statusOf (releaseSlot σ j) i = statusOf σ i := by
  unfold statusOf
  rw [releaseSlot_jobs]

theorem create_job_statusOf_ne (σ : RegistryState) (a r f : String) (t : Nat)
    {i : Nat} (h : i ≠ σ.nextId) :
    statusOf ((create_job σ a r f t).2) i = statusOf σ i := by
  unfold statusOf
  rw [create_job_jobs_ne _ _ _ _ _ h]

theorem create_job_statusOf_self (σ : RegistryState) (a r f : String) (t : Nat)
    (h : slotBusy σ = false) :
    statusOf ((create_job σ a r f t).2) σ.nextId = some JobStatus.running := by
  unfold statusOf
  rw [create_job_of_free _ _ _ _ _ h]
  show (setJob σ.jobs σ.nextId (some (newJob a r f t)) σ.nextId).map Job.status = _
  rw [setJob_same]
  rfl

theorem create_job_slot_free (σ : RegistryState) (a r f : String) (t : Nat)
    (h : slotBusy σ = false) :
    ((create_job σ a r f t).2).running_job_id = some σ.nextId := by
  rw [create_job_of_free _ _ _ _ _ h]

theorem create_job_nextId_free (σ : RegistryState) (a r f : String) (t : Nat)
    (h : slotBusy σ = false) :
    ((create_job σ a r f t).2).nextId = σ.nextId + 1 := by
  rw [create_job_of_free _ _ _ _ _ h]

theorem create_job_jobs_free (σ : RegistryState) (a r f : String) (t : Nat)
    (h : slotBusy σ = false) :
    ((create_job σ a r f t).2).jobs = setJob σ.jobs σ.nextId (some (newJob a r f t)) := by
  rw [create_job_of_free _ _ _ _ _ h]

theorem slotBusy_of_running (σ : RegistryState) (i : Nat) (hrun : JobRunning σ i)
    (hslot : σ.running_job_id = some i) : slotBusy σ = true := by
  obtain ⟨jb, hjb, hst⟩ := jobRunning_elim σ i hrun
  show (match σ.running_job_id with
        | none => false
        | some r =>
            match σ.jobs r with
            | none => false
            | some job => job.status == JobStatus.running) = true
  rw [hslot]
  show (match σ.jobs i with
        | none => false
        | some job => job.status == JobStatus.running) = true
  rw [hjb]
  show (jb.status == JobStatus.running) = true
  rw [hst]
  rfl

theorem regInv_step (N : Nat) (fin : List Nat) (σ : RegistryState) (e : Event)
    (hI : RegInv fin σ) (hok : OkStep fin σ e) :
    RegInv (finAfter fin e) (stepF N σ e) := by
  cases e with
  | create a r f t =>
      simp only [stepF, finAfter]
      by_cases hb : slotBusy σ = true
      · have hs : (create_job σ a r f t).2 = σ := by
          rw [create_job_of_busy _ _ _ _ _ hb]
        rw [hs]
        exact hI
      · have hb' : slotBusy σ = false := by simpa using hb
        have hnorun : ∀ i, ¬ JobRunning σ i := by
          intro i hrun
          have : slotBusy σ = true :=
            slotBusy_of_running σ i hrun (hI.slot_of_running i hrun)
          rw [this] at hb'
          cases hb'
        constructor
        · intro i hrun
          by_cases hi : i = σ.nextId
          · subst hi
            exact create_job_slot_free σ a r f t hb'
          · exact absurd
              ((jobRunning_of_statusOf (create_job_statusOf_ne σ a r f t hi)).mp hrun)
              (hnorun i)
        · intro i hle
          rw [create_job_nextId_free σ a r f t hb'] at hle
          have h1 : i ≠ σ.nextId := by omega
          show ((create_job σ a r f t).2).jobs i = none
          rw [create_job_jobs_free σ a r f t hb', setJob_ne _ _ _ h1]
          exact hI.fresh i (by omega)
        · intro jj hjj
          have hT := hI.fin_terminal jj hjj
          have hjsome := terminalJob_isSome σ jj hT
          have hne : jj ≠ σ.nextId := by
            intro he
            rw [he, hI.fresh σ.nextId (le_refl _)] at hjsome
            cases hjsome
          exact (terminalJob_of_statusOf (create_job_statusOf_ne σ a r f t hne)).mpr hT
        · rintro jj ⟨s, hs', hsne⟩
          by_cases hne : jj = σ.nextId
          · exfalso
            apply hsne
            subst hne
            rw [create_job_statusOf_self σ a r f t hb'] at hs'
            exact (Option.some.inj hs').symm
          · exact hI.terminal_fin jj
              ⟨s, by rw [← create_job_statusOf_ne σ a r f t hne]; exact hs', hsne⟩
  | append j line =>
      simp only [stepF, finAfter]
      constructor
      · intro i hrun
        rw [append_log_slot]
        exact hI.slot_of_running i
          ((jobRunning_of_statusOf (append_log_statusOf N σ j line i)).mp hrun)
      · intro i hle
        rw [append_log_nextId] at hle
        have h2 := termFields_isSome _ _ i (append_log_termFields N σ j line i)
        rw [hI.fresh i hle] at h2
        exact Option.not_isSome_iff_eq_none.mp (by rw [h2]; decide)
      · intro jj hjj
        exact (terminalJob_of_statusOf (append_log_statusOf N σ j line jj)).mpr
          (hI.fin_terminal jj hjj)
      · intro jj hT
        exact hI.terminal_fin jj
          ((terminalJob_of_statusOf (append_log_statusOf N σ j line jj)).mp hT)
  | finalize j rc t =>
      simp only [stepF, finAfter]
      obtain ⟨hjsome, hjfin⟩ := hok
      obtain ⟨job, hjob⟩ := Option.isSome_iff_exists.mp hjsome
      constructor
      · intro i hrun
        rw [finalizeJob_slot]
        by_cases hi : i = j
        · subst hi
          unfold JobRunning at hrun
          rw [finalizeJob_statusOf_self σ i rc t hjob] at hrun
          exact absurd (Option.some.inj hrun) (finalized_status_ne_running rc)
        · exact hI.slot_of_running i
            ((jobRunning_of_statusOf (finalizeJob_statusOf_ne σ j rc t hi)).mp hrun)
      · intro i hle
        rw [finalizeJob_nextId] at hle
        have hni := hI.fresh i hle
        have hij : i ≠ j := by
          intro he
          rw [he, hjob] at hni
          cases hni
        rw [finalizeJob_jobs_ne _ _ _ _ hij]
        exact hni
      · intro jj hjj
        rcases List.mem_cons.mp hjj with rfl | hmem
        · exact ⟨_, finalizeJob_statusOf_self σ jj rc t hjob, finalized_status_ne_running rc⟩
        · by_cases hij : jj = j
          · subst hij
            exact ⟨_, finalizeJob_statusOf_self σ jj rc t hjob, finalized_status_ne_running rc⟩
          · exact (terminalJob_of_statusOf (finalizeJob_statusOf_ne σ j rc t hij)).mpr
              (hI.fin_terminal jj hmem)
      · intro jj hT
        by_cases hij : jj = j
        · subst hij
          exact List.mem_cons_self _ _
        · exact List.mem_cons_of_mem _
            (hI.terminal_fin jj
              ((terminalJob_of_statusOf (finalizeJob_statusOf_ne σ j rc t hij)).mp hT))
  | release j =>
      simp only [stepF, finAfter]
      have hmem : j ∈ fin := hok
      have hTj := hI.fin_terminal j hmem
      constructor
      · intro i hrun
        have hrunσ : JobRunning σ i :=
          (jobRunning_of_statusOf (releaseSlot_statusOf σ j i)).mp hrun
        have hslot := hI.slot_of_running i hrunσ
        unfold releaseSlot
        split
        · rename_i hcond
          exfalso
          rw [hslot] at hcond
          obtain rfl := Option.some.inj hcond
          obtain ⟨s, hs', hsne⟩ := hTj
          unfold JobRunning at hrunσ
          rw [hrunσ] at hs'
          exact hsne (Option.some.inj hs').symm
        · exact hslot
      · intro i hle
        rw [releaseSlot_nextId] at hle
        show (releaseSlot σ j).jobs i = none
        rw [releaseSlot_jobs]
        exact hI.fresh i hle
      · intro jj hjj
        exact (terminalJob_of_statusOf (releaseSlot_statusOf σ j jj)).mpr
          (hI.fin_terminal jj hjj)
      · intro jj hT
        exact hI.terminal_fin jj
          ((terminalJob_of_statusOf (releaseSlot_statusOf σ j jj)).mp hT)

theorem regInv_init : RegInv [] initState := by
  constructor
  · intro i hrun
    obtain ⟨jb, hjb, _⟩ := jobRunning_elim initState i hrun
    cases hjb
  · intro i _
    rfl
  · intro j hj
    cases hj
  · rintro j ⟨s, hs, _⟩
    cases hs

theorem regInv_runTrace (N : Nat) (es : List Event) :
    ∀ (fin : List Nat) (σ : RegistryState), RegInv fin σ → ValidFrom N fin σ es →
      RegInv (es.foldl finAfter fin) (runTrace N σ es) := by
  induction es with
  | nil =>
      intro fin σ hI _
      exact hI
  | cons e rest ih =>
      intro fin σ hI hv
      rw [validFrom_cons] at hv
      exact ih (finAfter fin e) (stepF N σ e) (regInv_step N fin σ e hI hv.1) hv.2

theorem slotBusy_elim (σ : RegistryState) (h : slotBusy σ = true) :
    ∃ r, σ.running_job_id = some r ∧ JobRunning σ r := by
  unfold slotBusy at h
  cases hs : σ.running_job_id with
  | none =>
      rw [hs] at h
      cases h
  | some r =>
      rw [hs] at h
      have h2 : (match σ.jobs r with
                 | none => false
                 | some job => job.status == JobStatus.running) = true := h
      cases hr : σ.jobs r with
      | none =>
          rw [hr] at h2
          cases h2
      | some jb =>
          rw [hr] at h2
          refine ⟨r, rfl, ?_⟩
          unfold JobRunning statusOf
          rw [hr]
          simp [eq_of_beq h2]

/-- C1: in every reachable state of the registry (any interleaving of
handler and runner events the program can emit), at most one job is in
running status; a `create_job` attempt made while a job `i` is running
returns the rejection `(None, i)` carrying that job's identifier and leaves
the state unchanged (no new Job); and when no job is running the same
atomic check-and-set registers a fresh job in running status and occupies
the slot. -/
theorem single_run_slot (N : Nat) (es : List Event)
    (hv : ValidFrom N [] initState es) (a r f : String) (t : Nat) :
    (∀ i i', JobRunning (runTrace N initState es) i →
        JobRunning (runTrace N initState es) i' → i = i') ∧
    (∀ i, JobRunning (runTrace N initState es) i →
        create_job (runTrace N initState es) a r f t =
          ((none, some i), runTrace N initState es)) ∧
    ((∀ i, ¬ JobRunning (runTrace N initState es) i) →
        (create_job (runTrace N initState es) a r f t).1 =
          (some (runTrace N initState es).nextId, none) ∧
        JobRunning ((create_job (runTrace N initState es) a r f t).2)
          (runTrace N initState es).nextId) := by
  have hI := regInv_runTrace N es [] initState regInv_init hv
  refine ⟨?_, ?_, ?_⟩
  · intro i i' h1 h2
    have e1 := hI.slot_of_running i h1
    have e2 := hI.slot_of_running i' h2
    exact Option.some.inj (e1.symm.trans e2)
  · intro i hrun
    have hslot := hI.slot_of_running i hrun
    have hbusy := slotBusy_of_running _ i hrun hslot
    rw [create_job_of_busy _ _ _ _ _ hbusy, hslot]
  · intro hnone
    have hbusy : slotBusy (runTrace N initState es) = false := by
      cases hb : slotBusy (runTrace N initState es)
      · rfl
      · exfalso
        obtain ⟨rr, _, hrun⟩ := slotBusy_elim _ hb
        exact hnone rr hrun
    constructor
    · rw [create_job_of_free _ _ _ _ _ hbusy]
    · unfold JobRunning
      rw [create_job_statusOf_self _ a r f t hbusy]

theorem single_run_slot_witness :
    create_job (runTrace 5 initState [Event.create "deploy" "https://x" "main" 0])
        "upgrade" "https://y" "main" 1 =
      ((none, some 0), runTrace 5 initState [Event.create "deploy" "https://x" "main" 0]) :=
  (single_run_slot 5 [Event.create "deploy" "https://x" "main" 0]
      ⟨trivial, trivial⟩ "upgrade" "https://y" "main" 1).2.1 0 rfl

theorem termFields_frozen_aux (N : Nat) (es : List Event) :
    ∀ (fin : List Nat) (σ : RegistryState) (j : Nat), RegInv fin σ → TerminalJob σ j →
      ValidFrom N fin σ es →
      ((runTrace N σ es).jobs j).map termFields = (σ.jobs j).map termFields := by
  induction es with
  | nil =>
      intro fin σ j _ _ _
      rfl
  | cons e rest ih =>
      intro fin σ j hI hT hv
      rw [validFrom_cons] at hv
      obtain ⟨hok, hv'⟩ := hv
      have hstep : ((stepF N σ e).jobs j).map termFields = (σ.jobs j).map termFields := by
        cases e with
        | create a r f t =>
            simp only [stepF]
            have hne : j ≠ σ.nextId := by
              intro he
              have hsome := terminalJob_isSome σ j hT
              rw [he, hI.fresh σ.nextId (le_refl _)] at hsome
              cases hsome
            rw [create_job_jobs_ne _ _ _ _ _ hne]
        | append j' line =>
            simp only [stepF]
            exact append_log_termFields N σ j' line j
        | finalize j' rc t =>
            simp only [stepF]
            have hij : j ≠ j' := by
              intro he
              subst he
              exact hok.2 (hI.terminal_fin j hT)
            rw [finalizeJob_jobs_ne _ _ _ _ hij]
        | release j' =>
            simp only [stepF]
            rw [releaseSlot_jobs]
      have hT' : TerminalJob (stepF N σ e) j :=
        (terminalJob_of_statusOf (termFields_statusOf _ _ j hstep)).mpr hT
      have hI' := regInv_step N fin σ e hI hok
      rw [runTrace_cons, ih (finAfter fin e) (stepF N σ e) j hI' hT' hv']
      exact hstep

/-- C7: the transition out of running happens in one atomic step — the
terminal write of `run_job` sets status, finished_at and return_code
together under a single lock acquisition — and once a job is in a terminal
status, no valid continuation of the system (later creates, log appends
from its runner, finalizes of other jobs, slot releases) ever changes its
status, finished_at or return_code again. -/
theorem terminal_write_atomic_and_frozen (N : Nat) (fin : List Nat) (σ : RegistryState)
    (hI : RegInv fin σ) (j : Nat) :
    (∀ (job : Job) (rc : Int) (t : Nat), σ.jobs j = some job →
        (finalizeJob σ j rc t).jobs j =
          some { job with
                   status := if rc = 0 then JobStatus.success else JobStatus.failed,
                   finished_at := some t, return_code := some rc }) ∧
    (TerminalJob σ j → ∀ es, ValidFrom N fin σ es →
        ((runTrace N σ es).jobs j).map termFields = (σ.jobs j).map termFields) := by
  constructor
  · intro job rc t hjob
    exact finalizeJob_jobs_some σ j rc t hjob
  · intro hT es hv
    exact termFields_frozen_aux N es fin σ j hI hT hv

theorem terminal_write_atomic_and_frozen_witness :
    ((runTrace 2 (runTrace 2 initState
          [Event.create "deploy" "https://x" "main" 0, Event.finalize 0 0 1,
           Event.release 0])
        [Event.append 0 "late"]).jobs 0).map termFields =
      ((runTrace 2 initState
          [Event.create "deploy" "https://x" "main" 0, Event.finalize 0 0 1,
           Event.release 0]).jobs 0).map termFields :=
  (terminal_write_atomic_and_frozen 2 [0]
      (runTrace 2 initState [Event.create "deploy" "https://x" "main" 0,
        Event.finalize 0 0 1, Event.release 0])
      (regInv_runTrace 2 [Event.create "deploy" "https://x" "main" 0,
          Event.finalize 0 0 1, Event.release 0] [] initState regInv_init
        ⟨trivial, ⟨rfl, by decide⟩, ⟨by show (0 : Nat) ∈ [0]; decide, trivial⟩⟩)
      0).2
    ⟨JobStatus.success, rfl, by decide⟩
    [Event.append 0 "late"] ⟨trivial, trivial⟩

/-- C6: when the supervised process exits normally with code `rc`, the job
is finalized with status success exactly when `rc = 0` and failed when
`rc ≠ 0`, and its return_code records `rc`; a runner-internal exception
instead yields status failed with the sentinel return code -1. -/
theorem run_job_status_return_code (N : Nat) (σ : RegistryState) (j : Nat) (job : Job)
    (hj : σ.jobs j = some job) (out : ProcOutcome) (t : Nat) :
    ∃ job', (run_job N σ j out t).jobs j = some job' ∧
      (match out with
       | ProcOutcome.exits _ code =>
           (job'.status = JobStatus.success ↔ code = 0) ∧
           (job'.status = JobStatus.failed ↔ code ≠ 0) ∧
           job'.return_code = some code
       | ProcOutcome.raises _ _ =>
           job'.status = JobStatus.failed ∧ job'.return_code = some (-1)) := by
  cases out with
  | exits lines code =>
      have hj₁ := streamLogs_jobs_some N lines σ j job hj
      have hfin := finalizeJob_jobs_some (streamLogs N σ j lines) j code t hj₁
      refine ⟨{ job with
          logs := List.foldl (bufAppend N) job.logs lines,
          status := if code = 0 then JobStatus.success else JobStatus.failed,
          finished_at := some t,
          return_code := some code }, ?_, ?_, ?_, ?_⟩
      · simp only [run_job]
        rw [releaseSlot_jobs]
        exact hfin
      · show (if code = 0 then JobStatus.success else JobStatus.failed) = JobStatus.success
            ↔ code = 0
        by_cases hc : code = 0 <;> simp [hc]
      · show (if code = 0 then JobStatus.success else JobStatus.failed) = JobStatus.failed
            ↔ code ≠ 0
        by_cases hc : code = 0 <;> simp [hc]
      · rfl
  | raises lines msg =>
      have hj₁ := streamLogs_jobs_some N lines σ j job hj
      have hj₂ := append_log_jobs_some N (streamLogs N σ j lines) j (errorLog msg) hj₁
      have hfin := finalizeJob_jobs_some
        (append_log N (streamLogs N σ j lines) j (errorLog msg)) j (-1) t hj₂
      refine ⟨{ job with
          logs := bufAppend N (List.foldl (bufAppend N) job.logs lines) (errorLog msg),
          status := if (-1 : Int) = 0 then JobStatus.success else JobStatus.failed,
          finished_at := some t,
          return_code := some (-1) }, ?_, ?_, ?_⟩
      · simp only [run_job]
        rw [releaseSlot_jobs]
        exact hfin
      · show (if (-1 : Int) = 0 then JobStatus.success else JobStatus.failed)
            = JobStatus.failed
        norm_num
      · rfl

theorem run_job_status_return_code_witness :
    ∃ job', (run_job 2 sigmaC3 0 (ProcOutcome.exits ["ok"] 0) 7).jobs 0 = some job' ∧
      ((job'.status = JobStatus.success ↔ (0 : Int) = 0) ∧
       (job'.status = JobStatus.failed ↔ (0 : Int) ≠ 0) ∧
       job'.return_code = some 0) :=
  run_job_status_return_code 2 sigmaC3 0 jobEmptyLogs rfl (ProcOutcome.exits ["ok"] 0) 7

/-- C2: if an exception is raised while launching or streaming, `run_job`
appends the "[ERROR] Unexpected exception" diagnostic line (it is the last
retained log line, for any positive cap) and finalizes the job as failed
with return_code -1; and on every exit path (normal exit, nonzero exit, or
exception) the run slot is released as the very last step, so a subsequent
`create_job` succeeds. -/
theorem run_job_failure_logs_and_release (N : Nat) (hN : 1 ≤ N) (σ : RegistryState)
    (j : Nat) (job : Job) (hj : σ.jobs j = some job)
    (hslot : σ.running_job_id = some j) (t : Nat) :
    (∀ lines msg, ∃ job',
        (run_job N σ j (ProcOutcome.raises lines msg) t).jobs j = some job' ∧
        job'.status = JobStatus.failed ∧ job'.return_code = some (-1) ∧
        job'.logs.getLast? = some (rstripNewline (errorLog msg))) ∧
    (∀ out, (run_job N σ j out t).running_job_id = none ∧
        ∀ (a r f : String) (t' : Nat),
          (create_job (run_job N σ j out t) a r f t').1 =
            (some (run_job N σ j out t).nextId, none)) := by
  constructor
  · intro lines msg
    have hj₁ := streamLogs_jobs_some N lines σ j job hj
    have hj₂ := append_log_jobs_some N (streamLogs N σ j lines) j (errorLog msg) hj₁
    have hfin := finalizeJob_jobs_some
      (append_log N (streamLogs N σ j lines) j (errorLog msg)) j (-1) t hj₂
    refine ⟨{ job with
        logs := bufAppend N (List.foldl (bufAppend N) job.logs lines) (errorLog msg),
        status := if (-1 : Int) = 0 then JobStatus.success else JobStatus.failed,
        finished_at := some t,
        return_code := some (-1) }, ?_, ?_, ?_, ?_⟩
    · simp only [run_job]
      rw [releaseSlot_jobs]
      exact hfin
    · show (if (-1 : Int) = 0 then JobStatus.success else JobStatus.failed)
          = JobStatus.failed
      norm_num
    · rfl
    · exact bufAppend_getLast? N hN _ (errorLog msg)
  · intro out
    have hslot' : (run_job N σ j out t).running_job_id = none := by
      cases out with
      | exits lines code =>
          simp only [run_job]
          have h1 : (finalizeJob (streamLogs N σ j lines) j code t).running_job_id
              = some j := by
            rw [finalizeJob_slot, streamLogs_slot]
            exact hslot
          unfold releaseSlot
          rw [if_pos h1]
      | raises lines msg =>
          simp only [run_job]
          have h1 : (finalizeJob (append_log N (streamLogs N σ j lines) j (errorLog msg))
                j (-1) t).running_job_id = some j := by
            rw [finalizeJob_slot, append_log_slot, streamLogs_slot]
            exact hslot
          unfold releaseSlot
          rw [if_pos h1]
    refine ⟨hslot', ?_⟩
    intro a r f t'
    have hbusy : slotBusy (run_job N σ j out t) = false := by
      unfold slotBusy
      rw [hslot']
    rw [create_job_of_free _ _ _ _ _ hbusy]

theorem run_job_failure_logs_and_release_witness :
    (run_job 2 sigmaC3 0 (ProcOutcome.exits [] 0) 7).running_job_id = none ∧
      (create_job (run_job 2 sigmaC3 0 (ProcOutcome.exits [] 0) 7)
          "deploy" "https://y" "main" 8).1 =
        (some (run_job 2 sigmaC3 0 (ProcOutcome.exits [] 0) 7).nextId, none) :=
  have h := (run_job_failure_logs_and_release 2 (by decide) sigmaC3 0 jobEmptyLogs
      rfl rfl 7).2 (ProcOutcome.exits [] 0)
  ⟨h.1, h.2 "deploy" "https://y" "main" 8⟩
